import Mathlib

set_option maxHeartbeats 1000000

/-! Verification development for serve2d, a protocol-detecting server
front-end.  The definitions below are a shallow embedding of the
program's entry point (`serve2d.go`): dynamic configuration values as
decoded from JSON, the handler-construction switch of `main`, the
`httpHandler` file-serving logic together with the lexical path
cleaning it relies on (Go's `path.Clean` / `path.Join`), the
TLSMatcher construction and its dial callbacks, and the
registration loop plus the startup event order of `main`.  -/

/-- Dynamic JSON-decoded value, as produced by Go's `json.Unmarshal`
into a map of `interface` values: strings, booleans, numbers, arrays,
and null. -/
inductive Value where
  | str (s : String)
  | bool (b : Bool)
  | num (n : Int)
  | list (l : List Value)
  | null

/-- A decoded `conf` object: association list of keys to values
(Go map with unique keys). -/
abbrev ConfMap := List (String × Value)

/-- Map indexing with presence flag: `v.Conf[key]`. -/
def lookupC (m : ConfMap) (k : String) : Option Value :=
  (m.find? (fun kv => kv.1 == k)).map (fun kv => kv.2)

/-- Go type assertion `v.Conf[key].(string)`: `some` exactly when the
key is present and holds a string. -/
def getStr (m : ConfMap) (k : String) : Option String :=
  match lookupC m k with
  | some (Value.str s) => some s
  | _ => none

/-- Go type assertion `v.Conf[key].(bool)`. -/
def getBool (m : ConfMap) (k : String) : Option Bool :=
  match lookupC m k with
  | some (Value.bool b) => some b
  | _ => none

/-- Go type assertion `v.Conf[key].([]interface...)`: a decoded JSON
array. -/
def getListV (m : ConfMap) (k : String) : Option (List Value) :=
  match lookupC m k with
  | some (Value.list l) => some l
  | _ => none

/-- Element-wise `.(string)` assertions on a decoded JSON array, as in
the loops over `magicSlice`, `protos`, `serverNames` and
`negotiatedProtocols`; `none` when some element is not a string. -/
def getStrList (l : List Value) : Option (List String) :=
  l.mapM (fun v => match v with | Value.str s => some s | _ => none)

/-- One entry of the `protocols` list of the configuration file
(struct `Protocol` of serve2d). -/
structure Protocol where
  kind : String
  asDefault : Bool
  conf : ConfMap

/-- Top-level configuration (struct `Config` of serve2d). -/
structure Config where
  address : String
  logStdout : Bool
  logFile : String
  maxRead : Int
  protocols : List Protocol

/-- External world used by `main` and handler construction: file
reads (`ioutil.ReadFile`), certificate loading by the serve2 library's
`proto.NewTLS`, log-file opening, and the TCP listen call. -/
structure Env where
  readFile : String → Option String
  tlsLoadOk : String → String → Bool
  openLogOk : String → Bool
  listenOk : String → Bool

/-! ### Lexical path cleaning

`httpHandler.ServeHTTP` resolves request paths with Go's `path.Clean`
and `path.Join`.  Both are modelled here on the character list of the
string: segments are maximal runs of non-slash characters; cleaning
drops `.` segments and resolves `..` segments against a stack, with
`..` at the root eliminated. -/

/-- Close the segment collected in `cur` (in reversed character
order): empty runs produce no segment. -/
def segPush (cur : List Char) (acc : List (List Char)) : List (List Char) :=
  if cur = [] then acc else cur.reverse :: acc

/-- Split a character list at slashes; `cur` holds the current
segment reversed, `acc` the finished segments reversed. -/
def splitLoop : List Char → List Char → List (List Char) → List (List Char)
  | [], cur, acc => (segPush cur acc).reverse
  | c :: rest, cur, acc =>
    if c = '/' then splitLoop rest [] (segPush cur acc)
    else splitLoop rest (c :: cur) acc

/-- The non-empty slash-separated segments of a path. -/
def segsCh (l : List Char) : List (List Char) :=
  splitLoop l [] []

/-- Join segments back with single slashes. -/
def intercalateCh : List (List Char) → List Char
  | [] => []
  | [a] => a
  | a :: b :: rest => a ++ '/' :: intercalateCh (b :: rest)

/-- The `..`-resolution stack of `path.Clean`: `.` segments are
dropped, `..` pops the stack (or is dropped at the root of a rooted
path, or kept at the front of a relative path), everything else is
pushed.  `acc` is the output stack (reversed). -/
def cleanStack (rooted : Bool) : List (List Char) → List (List Char) → List (List Char)
  | acc, [] => acc.reverse
  | acc, seg :: rest =>
    if seg = ['.'] then cleanStack rooted acc rest
    else if seg = ['.', '.'] then
      match acc with
      | [] =>
        if rooted then cleanStack rooted [] rest
        else cleanStack rooted [['.', '.']] rest
      | a :: acc2 =>
        if a = ['.', '.'] then cleanStack rooted (seg :: a :: acc2) rest
        else cleanStack rooted acc2 rest
    else cleanStack rooted (seg :: acc) rest

/-- Whether a path begins with a slash. -/
def isRooted : List Char → Bool
  | [] => false
  | c :: _ => c == '/'

/-- Go's `path.Clean` on the character list of the path. -/
def goCleanCh (l : List Char) : List Char :=
  match l with
  | [] => ['.']
  | c :: _ =>
    if c = '/' then '/' :: intercalateCh (cleanStack true [] (segsCh l))
    else
      let segs := cleanStack false [] (segsCh l)
      if segs = [] then ['.'] else intercalateCh segs

/-- Go's `path.Clean`. -/
def goClean (s : String) : String :=
  String.mk (goCleanCh s.data)

/-- Go's `path.Join` on two elements: join the non-empty elements
with a slash, then clean (empty result when both are empty). -/
def goJoinCh (a b : List Char) : List Char :=
  if a = [] then (if b = [] then [] else goCleanCh b)
  else if b = [] then goCleanCh a
  else goCleanCh (a ++ '/' :: b)

/-- Go's `path.Join` on two strings. -/
def goJoin (a b : String) : String :=
  String.mk (goJoinCh a.data b.data)

/-! ### The HTTP file handler -/

/-- The `httpHandler` struct of serve2d. -/
structure httpHandler where
  path : String
  defaultFile : String
  notFoundMsg : String
  deriving DecidableEq, Repr

/-- The path computation of `httpHandler.ServeHTTP` on the character
level: prepend `"."` to the cleaned URL path to make it relative,
substitute the default file for a bare `"./"`, then join onto the
configured origin directory. -/
def serveResolvedPathCh (rootD dD sD : List Char) : List Char :=
  let p := '.' :: goCleanCh sD
  let p2 := if p = ['.', '/'] then p ++ dD else p
  goJoinCh rootD p2

/-- The file path that `httpHandler.ServeHTTP` reads for a request
path `s`, given root directory `root` and default file `d`. -/
def serveResolvedPath (root d s : String) : String :=
  String.mk (serveResolvedPathCh root.data d.data s.data)

/-- An HTTP response as written by the handler: a status code (Go's
implicit default is 200) and a body. -/
structure HttpResponse where
  status : Nat
  body : String
  deriving DecidableEq, Repr

/-- `httpHandler.ServeHTTP`: OPTIONS requests return immediately
(status 200, empty body, no file access); otherwise the resolved file
is read and served, a failed read producing a 404 with the configured
not-found body.  The second component records which file paths were
read, so that absence of file access is expressible. -/
def serveHTTP (fs : String → Option String) (h : httpHandler)
    (method urlPath : String) : HttpResponse × List String :=
  if method = "OPTIONS" then (⟨200, ""⟩, [])
  else
    let p := serveResolvedPath h.path h.defaultFile urlPath
    match fs p with
    | some content => (⟨200, content⟩, [p])
    | none => (⟨404, h.notFoundMsg⟩, [p])

/-- The built-in 404 body used when neither `notFoundMsg` nor
`notFoundFile` is configured. -/
def default404 : String :=
  "<!DOCTYPE html><html><body><h1>404</h1></body></html>"

/-- The not-found body selection of the `case "http"` branch, after
the exclusivity check: the built-in default when neither option is
present, the literal `notFoundMsg` string, or the contents of
`notFoundFile` read once at construction time (a failed read is a
construction error). -/
def httpNotFound (env : Env) (conf : ConfMap) : Except String String :=
  match lookupC conf "notFoundMsg", lookupC conf "notFoundFile" with
  | none, none => Except.ok default404
  | some (Value.str s), _ => Except.ok s
  | some _, _ => Except.error "HTTP notFoundMsg declaration invalid"
  | none, some (Value.str f) =>
    match env.readFile f with
    | some x => Except.ok x
    | none => Except.error "HTTP unable to open notFoundFile"
  | none, some _ => Except.error "HTTP notFoundFile declaration invalid"

/-- The `defaultFile` option handling: absent means `"index.html"`,
present must be a string. -/
def httpDefaultFile (conf : ConfMap) : Except String String :=
  match lookupC conf "defaultFile" with
  | none => Except.ok "index.html"
  | some (Value.str s) => Except.ok s
  | some _ => Except.error "HTTP defaultFile declaration invalid"

/-- The `case "http"` branch of the construction switch in `main`:
validates the mutually exclusive `notFoundMsg`/`notFoundFile`
options, selects the not-found body, defaults `defaultFile` to
`"index.html"`, and requires a string `path`. -/
def buildHttp (env : Env) (conf : ConfMap) : Except String httpHandler :=
  if (lookupC conf "notFoundFile").isSome ∧ (lookupC conf "notFoundMsg").isSome then
    Except.error "HTTP notFoundMsg and notFoundFile declared simultaneously"
  else
    match httpNotFound env conf with
    | Except.error e => Except.error e
    | Except.ok nf =>
      match httpDefaultFile conf with
      | Except.error e => Except.error e
      | Except.ok df =>
        match getStr conf "path" with
        | none => Except.error "HTTP path declaration invalid"
        | some p => Except.ok ⟨p, df, nf⟩

/-! ### TLSMatcher -/

/-- A constructed TLSMatcher: the target and dial strategy captured
by the callback closure, the enabled-check flags accumulated in the
`checks` bitmask, and the configured allow-lists / expected value. -/
structure TLSMatcherH where
  target : String
  dialTLS : Bool
  checkServerName : Bool
  serverNames : List String
  checkNegotiatedProtocol : Bool
  negotiatedProtocols : List String
  checkMutual : Bool
  negotiatedProtocolIsMutual : Bool
  descr : String

/-- The matcher as returned by `proto.NewTLSMatcher(cb)` before any
check is enabled; the dial strategy is TLS re-origination exactly
when `dialTLS` is present and `true` (`dialTLS, ok := ...(bool);
if !ok || !dialTLS` selects the plaintext callback). -/
def tmBase (conf : ConfMap) (target : String) : TLSMatcherH :=
  { target := target
    dialTLS := match getBool conf "dialTLS" with
               | some true => true
               | _ => false
    checkServerName := false
    serverNames := []
    checkNegotiatedProtocol := false
    negotiatedProtocols := []
    checkMutual := false
    negotiatedProtocolIsMutual := false
    descr := "TLSMatcher [dest: " ++ target ++ "]" }

/-- The `serverNames` block: enables `TLSCheckServerName` exactly when
the option decodes as an array, and fails when some element is not a
string. -/
def tmServerNames (conf : ConfMap) (t : TLSMatcherH) : Except String TLSMatcherH :=
  match getListV conf "serverNames" with
  | none => Except.ok t
  | some l =>
    match getStrList l with
    | none => Except.error "TLSMatcher serverNames declaration invalid"
    | some names => Except.ok { t with checkServerName := true, serverNames := names }

/-- The `negotiatedProtocols` block, analogous to `tmServerNames`. -/
def tmNegProtos (conf : ConfMap) (t : TLSMatcherH) : Except String TLSMatcherH :=
  match getListV conf "negotiatedProtocols" with
  | none => Except.ok t
  | some l =>
    match getStrList l with
    | none => Except.error "TLSMatcher negotiatedProtocols declaration invalid"
    | some ps => Except.ok { t with checkNegotiatedProtocol := true, negotiatedProtocols := ps }

/-- The `negotiatedProtocolIsMutual` block: enables the mutuality
check exactly when the option decodes as a boolean. -/
def tmMutual (conf : ConfMap) (t : TLSMatcherH) : TLSMatcherH :=
  match getBool conf "negotiatedProtocolIsMutual" with
  | some b => { t with checkMutual := true, negotiatedProtocolIsMutual := b }
  | none => t

/-- A transformation record on a connection's hint chain
(`utils.GetHints`): either a TLS connection with its negotiated
handshake state, or some other wrapper. -/
inductive Hint where
  | tlsConn (serverName negotiatedProtocol : String) (mutualNeg : Bool)
  | plainHint
  deriving DecidableEq, Repr

/-- A connection as seen by a match callback: its hint chain. -/
structure Conn where
  hints : List Hint
  deriving DecidableEq, Repr

/-- `hints[len(hints)-1]`: the most recent transformation record. -/
def lastHint (c : Conn) : Option Hint :=
  c.hints.getLast?

/-- The outbound dial a callback performs: `utils.DialAndProxy`
(plaintext dial, bytes proxied verbatim) or `utils.DialAndProxyTLS`
with an explicit client TLS configuration. -/
inductive DialAction where
  | plainDial (network target : String)
  | tlsDial (network target serverName : String) (nextProtos : List String)
      (insecureSkipVerify : Bool)
  deriving DecidableEq, Repr

/-- The match callback installed by the `case "tlsmatcher"` branch:
with `dialTLS`, read the server name and negotiated protocol from the
most recent hint when it is a TLS connection (empty strings
otherwise) and dial the target over TLS with certificate verification
disabled; without `dialTLS`, dial the target in plaintext. -/
def tlsMatcherCB (t : TLSMatcherH) (c : Conn) : DialAction :=
  if t.dialTLS then
    match lastHint c with
    | some (Hint.tlsConn sn np _) => DialAction.tlsDial "tcp" t.target sn [np] true
    | _ => DialAction.tlsDial "tcp" t.target "" [""] true
  else DialAction.plainDial "tcp" t.target

/-- Modelled from the spec: the serve2 library's TLSMatcher match
predicate, which is not part of this repository (only its
configuration is, in `main`).  A TLS-terminated connection with
handshake state `(sn, np, m)` matches exactly when every enabled
check passes: server name in the allow-list, negotiated protocol in
the allow-list, and mutuality equal to the expected value. -/
def tlsMatcherMatches (t : TLSMatcherH) (sn np : String) (m : Bool) : Bool :=
  (!t.checkServerName || t.serverNames.contains sn)
  && (!t.checkNegotiatedProtocol || t.negotiatedProtocols.contains np)
  && (!t.checkMutual || t.negotiatedProtocolIsMutual == m)

/-! ### The handler-construction switch of `main` -/

/-- A constructed protocol handler (the `serve2.ProtocolHandler`
values produced by the switch in `main`). -/
inductive Handler where
  | proxy (magic : List Char) (network target : String)
  | multiProxy (magics : List (List Char)) (network target : String)
  | tls (protos : List String) (cert key : String)
  | tlsmatcher (t : TLSMatcherH)
  | http (h : httpHandler)
  | echo
  | discard

/-- The `case "proxy"` branch: `magic` must be a string or an array,
`target` a string; an array yields `proto.NewMultiProxy` with the
patterns in declared order (each element must be a string), a string
yields `proto.NewProxy`.  Magic bytes are modelled as the characters
of the configured string. -/
def buildProxy (conf : ConfMap) : Except String Handler :=
  match getStr conf "magic", getListV conf "magic" with
  | none, none => Except.error "Proxy declaration is missing valid magic"
  | mok, sok =>
    match getStr conf "target" with
    | none => Except.error "Proxy declaration is missing valid target"
    | some target =>
      match mok with
      | some magic => Except.ok (Handler.proxy magic.data "tcp" target)
      | none =>
        match sok with
        | none => Except.error "Proxy declaration is missing valid magic"
        | some l =>
          match getStrList l with
          | none => Except.error "magic declaration invalid"
          | some ms => Except.ok (Handler.multiProxy (ms.map String.data) "tcp" target)

/-- The `case "tls"` branch: requires string `cert` and `key`, an
array of strings `protos`, and loads the certificate material at
construction time (`proto.NewTLS`); a load failure is fatal. -/
def buildTLS (env : Env) (conf : ConfMap) : Except String Handler :=
  match getStr conf "cert" with
  | none => Except.error "TLS declaration is missing valid certificate"
  | some cert =>
    match getStr conf "key" with
    | none => Except.error "TLS declaration is missing valid key"
    | some key =>
      match getListV conf "protos" with
      | none => Except.error "TLS protos declaration invalid"
      | some y =>
        match getStrList y with
        | none => Except.error "TLS protos declaration invalid"
        | some protos =>
          if env.tlsLoadOk cert key then Except.ok (Handler.tls protos cert key)
          else Except.error "TLS configuration failed"

/-- The `case "tlsmatcher"` branch: requires a string `target`, picks
the dial strategy from `dialTLS`, then enables each check whose
option is present with the expected shape. -/
def buildTLSMatcher (conf : ConfMap) : Except String Handler :=
  match getStr conf "target" with
  | none => Except.error "TLSMatcher declaration is missing valid target"
  | some target =>
    match tmServerNames conf (tmBase conf target) with
    | Except.error e => Except.error e
    | Except.ok t1 =>
      match tmNegProtos conf t1 with
      | Except.error e => Except.error e
      | Except.ok t2 => Except.ok (Handler.tlsmatcher (tmMutual conf t2))

/-- The handler-construction switch of `main` (`switch v.Kind`),
including the `default: panic("Unknown kind: ...")` arm. -/
def buildHandler (env : Env) (v : Protocol) : Except String Handler :=
  match v.kind with
  | "proxy" => buildProxy v.conf
  | "tls" => buildTLS env v.conf
  | "tlsmatcher" => buildTLSMatcher v.conf
  | "http" =>
    match buildHttp env v.conf with
    | Except.error e => Except.error e
    | Except.ok h => Except.ok (Handler.http h)
  | "echo" => Except.ok Handler.echo
  | "discard" => Except.ok Handler.discard
  | k => Except.error ("Unknown kind: " ++ k)

/-- Whether construction of a handler fails (the branch panics). -/
def isErr (e : Except String Handler) : Bool :=
  match e with
  | Except.error _ => true
  | Except.ok _ => false

/-! ### Registration loop and startup order of `main` -/

/-- The registration loop of `main`: each constructed handler is
either installed as `server.DefaultProtocol` (overwriting any
previous value) or appended with `server.AddHandler`; a construction
failure aborts. -/
def registerLoop (env : Env) :
    List Protocol → List Handler → Option Handler →
    Except String (List Handler × Option Handler)
  | [], hs, dflt => Except.ok (hs, dflt)
  | v :: rest, hs, dflt =>
    match buildHandler env v with
    | Except.error e => Except.error e
    | Except.ok h =>
      if v.asDefault then registerLoop env rest hs (some h)
      else registerLoop env rest (hs ++ [h]) dflt

/-- The full registration pass over the configured protocol list,
starting from no handlers and no default. -/
def registerAll (env : Env) (l : List Protocol) :
    Except String (List Handler × Option Handler) :=
  registerLoop env l [] none

/-- The last protocol spec of the list marked `default`, if any. -/
def lastDefault : List Protocol → Option Protocol
  | [] => none
  | v :: rest =>
    match lastDefault rest with
    | some w => some w
    | none => if v.asDefault then some v else none

/-- Externally visible startup events of `main`, in order. -/
inductive Event where
  | listenOpened
  | handlerRegistered
  | defaultSet
  | panicked (msg : String)
  | serveStarted
  deriving DecidableEq, Repr

/-- Events of the handler loop: one registration event per handler
until a construction failure panics, then `server.Serve`. -/
def loopTrace (env : Env) : List Protocol → List Event
  | [] => [Event.serveStarted]
  | v :: rest =>
    match buildHandler env v with
    | Except.error e => [Event.panicked e]
    | Except.ok _ =>
      (if v.asDefault then Event.defaultSet else Event.handlerRegistered)
        :: loopTrace env rest

/-- The event order of `main` after the configuration is decoded:
logging validation and log-file opening, then `net.Listen`, then the
handler-construction loop, then `server.Serve`.  Note that the listen
call precedes handler construction. -/
def mainTrace (env : Env) (conf : Config) : List Event :=
  if conf.logStdout ∧ conf.logFile ≠ "" then
    [Event.panicked "Unable to both log to stdout and to logfile"]
  else if (conf.logStdout ∨ conf.logFile ≠ "") ∧ conf.logFile ≠ ""
      ∧ env.openLogOk conf.logFile = false then
    [Event.panicked "Failed to open logfile"]
  else if env.listenOk conf.address = false then
    [Event.panicked "Listen failed"]
  else
    Event.listenOpened :: loopTrace env conf.protocols

/-! ### Multi-pattern magic matching -/

/-- Modelled from the spec: the serve2 library's MultiProxy matching,
which is not part of this repository (`main` only constructs the
handler with `proto.NewMultiProxy(magics, ...)`).  The buffered
prefix bytes are matched against the declared patterns in order and
the first pattern that is a prefix of the buffer is selected. -/
def multiProxyMatch (patterns : List (List Char)) (buf : List Char) :
    Option (List Char) :=
  patterns.find? (fun p => p.isPrefixOf buf)

/-! ### Supporting lemmas: TLSMatcher construction -/

theorem getBool_true_iff (m : ConfMap) (k : String) :
    getBool m k = some true ↔ lookupC m k = some (Value.bool true) := by
  unfold getBool
  cases h : lookupC m k with
  | none => simp
  | some v => cases v <;> simp

theorem tmServerNames_ok {conf : ConfMap} {t t' : TLSMatcherH}
    (h : tmServerNames conf t = Except.ok t') :
    t'.target = t.target ∧ t'.dialTLS = t.dialTLS
    ∧ t'.checkNegotiatedProtocol = t.checkNegotiatedProtocol
    ∧ t'.negotiatedProtocols = t.negotiatedProtocols
    ∧ t'.checkMutual = t.checkMutual
    ∧ t'.negotiatedProtocolIsMutual = t.negotiatedProtocolIsMutual
    ∧ t'.checkServerName = ((getListV conf "serverNames").isSome || t.checkServerName) := by
  unfold tmServerNames at h
  split at h
  · cases h
    simp_all
  · split at h
    · nomatch h
    · cases h
      simp_all

theorem tmNegProtos_ok {conf : ConfMap} {t t' : TLSMatcherH}
    (h : tmNegProtos conf t = Except.ok t') :
    t'.target = t.target ∧ t'.dialTLS = t.dialTLS
    ∧ t'.checkServerName = t.checkServerName
    ∧ t'.serverNames = t.serverNames
    ∧ t'.checkMutual = t.checkMutual
    ∧ t'.negotiatedProtocolIsMutual = t.negotiatedProtocolIsMutual
    ∧ t'.checkNegotiatedProtocol
        = ((getListV conf "negotiatedProtocols").isSome || t.checkNegotiatedProtocol) := by
  unfold tmNegProtos at h
  split at h
  · cases h
    simp_all
  · split at h
    · nomatch h
    · cases h
      simp_all

theorem tmMutual_spec (conf : ConfMap) (t : TLSMatcherH) :
    (tmMutual conf t).target = t.target ∧ (tmMutual conf t).dialTLS = t.dialTLS
    ∧ (tmMutual conf t).checkServerName = t.checkServerName
    ∧ (tmMutual conf t).serverNames = t.serverNames
    ∧ (tmMutual conf t).checkNegotiatedProtocol = t.checkNegotiatedProtocol
    ∧ (tmMutual conf t).negotiatedProtocols = t.negotiatedProtocols
    ∧ (tmMutual conf t).checkMutual
        = ((getBool conf "negotiatedProtocolIsMutual").isSome || t.checkMutual) := by
  unfold tmMutual
  cases h : getBool conf "negotiatedProtocolIsMutual" <;> simp

theorem buildTLSMatcher_ok {conf : ConfMap} {t : TLSMatcherH}
    (h : buildTLSMatcher conf = Except.ok (Handler.tlsmatcher t)) :
    (∃ target, getStr conf "target" = some target ∧ t.target = target)
    ∧ t.dialTLS = (match getBool conf "dialTLS" with
                   | some true => true
                   | _ => false)
    ∧ t.checkServerName = (getListV conf "serverNames").isSome
    ∧ t.checkNegotiatedProtocol = (getListV conf "negotiatedProtocols").isSome
    ∧ t.checkMutual = (getBool conf "negotiatedProtocolIsMutual").isSome := by
  unfold buildTLSMatcher at h
  split at h
  · nomatch h
  next target htg =>
    split at h
    · nomatch h
    next t1 h1 =>
      split at h
      · nomatch h
      next t2 h2 =>
        have ht : t = tmMutual conf t2 := by
          cases h; rfl
        have s1 := tmServerNames_ok h1
        have s2 := tmNegProtos_ok h2
        have s3 := tmMutual_spec conf t2
        have hbase : (tmBase conf target).target = target ∧
            (tmBase conf target).dialTLS
              = (match getBool conf "dialTLS" with
                 | some true => true
                 | _ => false) ∧
            (tmBase conf target).checkServerName = false ∧
            (tmBase conf target).checkNegotiatedProtocol = false ∧
            (tmBase conf target).checkMutual = false := by
          simp [tmBase]
        subst ht
        refine ⟨⟨target, htg, ?_⟩, ?_, ?_, ?_, ?_⟩
        · rw [s3.1, s2.1, s1.1, hbase.1]
        · rw [s3.2.1, s2.2.1, s1.2.1, hbase.2.1]
        · rw [s3.2.2.1, s2.2.2.1, s1.2.2.2.2.2.2, hbase.2.2.1, Bool.or_false]
        · rw [s3.2.2.2.2.1, s2.2.2.2.2.2.2, s1.2.2.1, hbase.2.2.2.1, Bool.or_false]
        · rw [s3.2.2.2.2.2.2, s2.2.2.2.2.1, s1.2.2.2.2.1, hbase.2.2.2.2, Bool.or_false]

theorem dialTLS_true_iff {conf : ConfMap} {t : TLSMatcherH}
    (h : buildTLSMatcher conf = Except.ok (Handler.tlsmatcher t)) :
    t.dialTLS = true ↔ lookupC conf "dialTLS" = some (Value.bool true) := by
  rw [(buildTLSMatcher_ok h).2.1, ← getBool_true_iff]
  cases hb : getBool conf "dialTLS" with
  | none => simp
  | some b => cases b <;> simp

theorem contains_iff_mem {l : List String} {a : String} :
    l.contains a = true ↔ a ∈ l := by
  simp

theorem impCheck (a b : Bool) : (!a || b) = true ↔ (a = true → b = true) := by
  cases a <;> cases b <;> simp

/-- Configuration with only a target: no checks, no dialTLS. -/
def confTargetOnly : ConfMap := [("target", Value.str "localhost:22")]

/-- Configuration requesting TLS re-origination. -/
def confDialTLS : ConfMap :=
  [("target", Value.str "backend:443"), ("dialTLS", Value.bool true)]

/-- Configuration with a malformed (non-boolean) dialTLS value. -/
def confDialTLSStr : ConfMap :=
  [("target", Value.str "localhost:22"), ("dialTLS", Value.str "yes")]

/-- C3: for a TLSMatcher built by the factory, a check is enabled iff
its configuration field was supplied (decoded with the option's
shape); a TLS-terminated connection with handshake state
`(sn, np, m)` matches iff every enabled check passes (logical AND);
and a matcher with zero enabled checks matches every connection. -/
theorem C3_tlsmatcher_check_semantics (conf : ConfMap) (t : TLSMatcherH)
    (h : buildTLSMatcher conf = Except.ok (Handler.tlsmatcher t)) :
    (t.checkServerName = true ↔ ∃ l, getListV conf "serverNames" = some l)
    ∧ (t.checkNegotiatedProtocol = true
        ↔ ∃ l, getListV conf "negotiatedProtocols" = some l)
    ∧ (t.checkMutual = true ↔ ∃ b, getBool conf "negotiatedProtocolIsMutual" = some b)
    ∧ (∀ sn np m, tlsMatcherMatches t sn np m = true ↔
        ((t.checkServerName = true → sn ∈ t.serverNames)
         ∧ (t.checkNegotiatedProtocol = true → np ∈ t.negotiatedProtocols)
         ∧ (t.checkMutual = true → t.negotiatedProtocolIsMutual = m)))
    ∧ (t.checkServerName = false → t.checkNegotiatedProtocol = false →
        t.checkMutual = false → ∀ sn np m, tlsMatcherMatches t sn np m = true) := by
  have inv := buildTLSMatcher_ok h
  refine ⟨?_, ?_, ?_, ?_, ?_⟩
  · rw [inv.2.2.1, Option.isSome_iff_exists]
  · rw [inv.2.2.2.1, Option.isSome_iff_exists]
  · rw [inv.2.2.2.2, Option.isSome_iff_exists]
  · intro sn np m
    unfold tlsMatcherMatches
    rw [Bool.and_eq_true, Bool.and_eq_true, impCheck, impCheck, impCheck]
    simp only [contains_iff_mem, beq_iff_eq, and_assoc]
  · intro h1 h2 h3 sn np m
    unfold tlsMatcherMatches
    rw [h1, h2, h3]
    rfl

/-- C3 witness: the matcher built from a checks-free configuration
matches an arbitrary TLS-terminated connection. -/
theorem C3_witness :
    tlsMatcherMatches (tmBase confTargetOnly "localhost:22") "a.example" "h2" true
      = true :=
  (C3_tlsmatcher_check_semantics confTargetOnly
      (tmBase confTargetOnly "localhost:22") rfl).2.2.2.2
    rfl rfl rfl "a.example" "h2" true

/-- C4: with `dialTLS` set to `true`, the callback dials the target
over TLS with the server name and single advertised protocol taken
from the inbound handshake and certificate verification disabled;
otherwise it dials the target in plaintext (verbatim proxy). -/
theorem C4_tlsmatcher_dial_strategy (conf : ConfMap) (t : TLSMatcherH)
    (h : buildTLSMatcher conf = Except.ok (Handler.tlsmatcher t)) :
    (lookupC conf "dialTLS" = some (Value.bool true) →
      ∀ (c : Conn) sn np m, lastHint c = some (Hint.tlsConn sn np m) →
        tlsMatcherCB t c = DialAction.tlsDial "tcp" t.target sn [np] true)
    ∧ (lookupC conf "dialTLS" ≠ some (Value.bool true) →
      ∀ c : Conn, tlsMatcherCB t c = DialAction.plainDial "tcp" t.target) := by
  have hiff := dialTLS_true_iff h
  constructor
  · intro hl c sn np m hlast
    have hdt : t.dialTLS = true := hiff.mpr hl
    simp [tlsMatcherCB, hdt, hlast]
  · intro hl c
    have hdt : t.dialTLS = false := by
      cases hdt2 : t.dialTLS
      · rfl
      · exact absurd (hiff.mp hdt2) hl
    simp [tlsMatcherCB, hdt]

/-- C4 witness: both dial strategies at concrete configurations. -/
theorem C4_witness :
    tlsMatcherCB (tmBase confDialTLS "backend:443")
        ⟨[Hint.tlsConn "a.example" "h2" true]⟩
      = DialAction.tlsDial "tcp" (tmBase confDialTLS "backend:443").target
          "a.example" ["h2"] true
    ∧ tlsMatcherCB (tmBase confTargetOnly "localhost:22") ⟨[]⟩
      = DialAction.plainDial "tcp" (tmBase confTargetOnly "localhost:22").target := by
  constructor
  · exact (C4_tlsmatcher_dial_strategy confDialTLS _ rfl).1 rfl _ "a.example" "h2" true rfl
  · refine (C4_tlsmatcher_dial_strategy confTargetOnly _ rfl).2 ?_ _
    intro hx
    rw [show lookupC confTargetOnly "dialTLS" = none from rfl] at hx
    nomatch hx

/-- C10: with `dialTLS` set and an empty hint chain, or a most recent
hint that is not a TLS connection, the outbound TLS dial still
proceeds with empty server name and the single-element protocol list
containing the empty string. -/
theorem C10_dialTLS_missing_hint (conf : ConfMap) (t : TLSMatcherH)
    (h : buildTLSMatcher conf = Except.ok (Handler.tlsmatcher t))
    (hdt : t.dialTLS = true) (c : Conn)
    (hc : c.hints = [] ∨ ∀ sn np m, lastHint c ≠ some (Hint.tlsConn sn np m)) :
    tlsMatcherCB t c = DialAction.tlsDial "tcp" t.target "" [""] true := by
  have hnot : ∀ sn np m, lastHint c ≠ some (Hint.tlsConn sn np m) := by
    rcases hc with hc | hc
    · intro sn np m hx
      unfold lastHint at hx
      rw [hc] at hx
      nomatch hx
    · exact hc
  cases hl : lastHint c with
  | none => simp [tlsMatcherCB, hdt, hl]
  | some hint =>
    cases hint with
    | tlsConn sn np m => exact absurd hl (hnot sn np m)
    | plainHint => simp [tlsMatcherCB, hdt, hl]

/-- C10 witness: empty hint chain and non-TLS most recent hint. -/
theorem C10_witness :
    tlsMatcherCB (tmBase confDialTLS "backend:443") ⟨[]⟩
      = DialAction.tlsDial "tcp" (tmBase confDialTLS "backend:443").target "" [""] true
    ∧ tlsMatcherCB (tmBase confDialTLS "backend:443") ⟨[Hint.plainHint]⟩
      = DialAction.tlsDial "tcp" (tmBase confDialTLS "backend:443").target "" [""] true := by
  constructor
  · exact C10_dialTLS_missing_hint confDialTLS _ rfl rfl ⟨[]⟩ (Or.inl rfl)
  · refine C10_dialTLS_missing_hint confDialTLS _ rfl rfl ⟨[Hint.plainHint]⟩ (Or.inr ?_)
    intro sn np m hx
    nomatch hx

/-- Well-shapedness of the optional check lists: whenever present,
their elements are strings.  Needed so that a malformed `dialTLS`
is the only potential failure in sight. -/
def checksWF (conf : ConfMap) : Prop :=
  (∀ l, getListV conf "serverNames" = some l → (getStrList l).isSome = true)
  ∧ (∀ l, getListV conf "negotiatedProtocols" = some l → (getStrList l).isSome = true)

/-- C9: a `dialTLS` option that is present but not a boolean does not
fail construction; it is treated like an absent or false `dialTLS`
and the plaintext passthrough dial strategy is used. -/
theorem C9_dialTLS_wrong_shape (conf : ConfMap) (v : Value)
    (hp : lookupC conf "dialTLS" = some v) (hnb : ∀ b, v ≠ Value.bool b)
    (ht : ∃ target, getStr conf "target" = some target) (hwf : checksWF conf) :
    ∃ t, buildTLSMatcher conf = Except.ok (Handler.tlsmatcher t)
      ∧ t.dialTLS = false
      ∧ ∀ c : Conn, tlsMatcherCB t c = DialAction.plainDial "tcp" t.target := by
  obtain ⟨target, htg⟩ := ht
  have hgb : getBool conf "dialTLS" = none := by
    unfold getBool
    rw [hp]
    cases v
    case bool b => exact absurd rfl (hnb b)
    all_goals rfl
  obtain ⟨t1, h1⟩ : ∃ t1, tmServerNames conf (tmBase conf target) = Except.ok t1 := by
    cases hl : getListV conf "serverNames" with
    | none => exact ⟨_, by unfold tmServerNames; rw [hl]⟩
    | some l =>
      obtain ⟨names, hs⟩ := Option.isSome_iff_exists.mp (hwf.1 l hl)
      exact ⟨{ tmBase conf target with checkServerName := true, serverNames := names },
        by unfold tmServerNames; simp only [hl, hs]⟩
  obtain ⟨t2, h2⟩ : ∃ t2, tmNegProtos conf t1 = Except.ok t2 := by
    cases hl : getListV conf "negotiatedProtocols" with
    | none => exact ⟨_, by unfold tmNegProtos; rw [hl]⟩
    | some l =>
      obtain ⟨ps, hs⟩ := Option.isSome_iff_exists.mp (hwf.2 l hl)
      exact ⟨{ t1 with checkNegotiatedProtocol := true, negotiatedProtocols := ps },
        by unfold tmNegProtos; simp only [hl, hs]⟩
  have hdt : (tmMutual conf t2).dialTLS = false := by
    rw [(tmMutual_spec conf t2).2.1, (tmNegProtos_ok h2).2.1, (tmServerNames_ok h1).2.1]
    simp [tmBase, hgb]
  refine ⟨tmMutual conf t2, ?_, hdt, ?_⟩
  · unfold buildTLSMatcher
    simp only [htg, h1, h2]
  · intro c
    simp [tlsMatcherCB, hdt]

/-- C9 witness: a string-valued `dialTLS` at a concrete
configuration. -/
theorem C9_witness :
    ∃ t, buildTLSMatcher confDialTLSStr = Except.ok (Handler.tlsmatcher t)
      ∧ t.dialTLS = false
      ∧ ∀ c : Conn, tlsMatcherCB t c = DialAction.plainDial "tcp" t.target := by
  refine C9_dialTLS_wrong_shape confDialTLSStr (Value.str "yes") rfl ?_
    ⟨"localhost:22", rfl⟩ ⟨?_, ?_⟩
  · intro b hx
    nomatch hx
  · intro l hl
    rw [show getListV confDialTLSStr "serverNames" = none from rfl] at hl
    nomatch hl
  · intro l hl
    rw [show getListV confDialTLSStr "negotiatedProtocols" = none from rfl] at hl
    nomatch hl

/-- C8: an OPTIONS request (the method requesting no response body)
short-circuits with an empty successful response and no file read. -/
theorem C8_options_short_circuit (fs : String → Option String)
    (h : httpHandler) (u : String) :
    serveHTTP fs h "OPTIONS" u = (⟨200, ""⟩, []) := by
  unfold serveHTTP
  rw [if_pos rfl]

/-! ### C7: the HTTP handler's not-found configuration -/

theorem buildHttp_ok_fields {env : Env} {conf : ConfMap} {hh : httpHandler}
    (hok : buildHttp env conf = Except.ok hh) :
    httpNotFound env conf = Except.ok hh.notFoundMsg
    ∧ httpDefaultFile conf = Except.ok hh.defaultFile
    ∧ getStr conf "path" = some hh.path := by
  unfold buildHttp at hok
  split at hok
  · nomatch hok
  · split at hok
    · nomatch hok
    next nf hnf =>
      split at hok
      · nomatch hok
      next df hdf =>
        split at hok
        · nomatch hok
        next p hp =>
          cases hok
          exact ⟨hnf, hdf, hp⟩

/-- C7: configuring both `notFoundMsg` and `notFoundFile` fails
construction; configuring neither yields the built-in default 404
body; a configured `notFoundFile` is read once at construction time,
and a failed read is a construction (configuration) error, not a
per-request error. -/
theorem C7_http_notfound_exclusive (env : Env) (conf : ConfMap) :
    ((lookupC conf "notFoundMsg").isSome = true →
      (lookupC conf "notFoundFile").isSome = true →
      buildHttp env conf
        = Except.error "HTTP notFoundMsg and notFoundFile declared simultaneously")
    ∧ (lookupC conf "notFoundMsg" = none → lookupC conf "notFoundFile" = none →
      ∀ hh, buildHttp env conf = Except.ok hh → hh.notFoundMsg = default404)
    ∧ (∀ f, lookupC conf "notFoundMsg" = none →
      lookupC conf "notFoundFile" = some (Value.str f) →
      (env.readFile f = none →
        buildHttp env conf = Except.error "HTTP unable to open notFoundFile")
      ∧ (∀ content, env.readFile f = some content →
        ∀ hh, buildHttp env conf = Except.ok hh → hh.notFoundMsg = content)) := by
  refine ⟨?_, ?_, ?_⟩
  · intro h1 h2
    unfold buildHttp
    rw [if_pos ⟨h2, h1⟩]
  · intro h1 h2 hh hok
    have hnf : httpNotFound env conf = Except.ok default404 := by
      unfold httpNotFound
      simp only [h1, h2]
    have := (buildHttp_ok_fields hok).1
    rw [hnf] at this
    exact (Except.ok.inj this).symm
  · intro f h1 h2
    have hcond :
        ¬((lookupC conf "notFoundFile").isSome = true
          ∧ (lookupC conf "notFoundMsg").isSome = true) := by
      intro hcontra
      rw [h1] at hcontra
      simp at hcontra
    constructor
    · intro hread
      have hnf : httpNotFound env conf
          = Except.error "HTTP unable to open notFoundFile" := by
        unfold httpNotFound
        simp only [h1, h2, hread]
      unfold buildHttp
      rw [if_neg hcond]
      simp only [hnf]
    · intro content hread hh hok
      have hnf : httpNotFound env conf = Except.ok content := by
        unfold httpNotFound
        simp only [h1, h2, hread]
      have := (buildHttp_ok_fields hok).1
      rw [hnf] at this
      exact (Except.ok.inj this).symm

/-- Environment whose only readable file is `404.html`. -/
def env404 : Env :=
  ⟨fun f => if f = "404.html" then some "CUSTOM" else none,
   fun _ _ => true, fun _ => true, fun _ => true⟩

/-- Configuration with both not-found options. -/
def confBoth : ConfMap :=
  [("notFoundMsg", Value.str "a"), ("notFoundFile", Value.str "b"),
   ("path", Value.str "/srv/http")]

/-- Configuration with neither not-found option. -/
def confNeither : ConfMap := [("path", Value.str "/srv/http")]

/-- Configuration with a `notFoundFile`. -/
def confFile : ConfMap :=
  [("notFoundFile", Value.str "404.html"), ("path", Value.str "/srv/http")]

/-- Configuration with an unreadable `notFoundFile`. -/
def confBadFile : ConfMap :=
  [("notFoundFile", Value.str "missing.html"), ("path", Value.str "/srv/http")]

/-- C7 witness: all three behaviours at concrete configurations. -/
theorem C7_witness :
    buildHttp env404 confBoth
      = Except.error "HTTP notFoundMsg and notFoundFile declared simultaneously"
    ∧ (∀ hh, buildHttp env404 confNeither = Except.ok hh →
        hh.notFoundMsg = default404)
    ∧ buildHttp env404 confBadFile
      = Except.error "HTTP unable to open notFoundFile"
    ∧ (∀ hh, buildHttp env404 confFile = Except.ok hh →
        hh.notFoundMsg = "CUSTOM") := by
  refine ⟨?_, ?_, ?_, ?_⟩
  · exact (C7_http_notfound_exclusive env404 confBoth).1 rfl rfl
  · exact (C7_http_notfound_exclusive env404 confNeither).2.1 rfl rfl
  · exact ((C7_http_notfound_exclusive env404 confBadFile).2.2
      "missing.html" rfl rfl).1 rfl
  · exact fun hh => ((C7_http_notfound_exclusive env404 confFile).2.2
      "404.html" rfl rfl).2 "CUSTOM" rfl hh

/-! ### C6: default-handler registration -/

theorem registerLoop_ok (env : Env) :
    ∀ (l : List Protocol) (hs0 : List Handler) (d0 : Option Handler)
      (hs : List Handler) (dflt : Option Handler),
      registerLoop env l hs0 d0 = Except.ok (hs, dflt) →
      (∃ hs1, hs = hs0 ++ hs1
        ∧ List.Forall₂ (fun v hv => buildHandler env v = Except.ok hv)
            (l.filter (fun v => !v.asDefault)) hs1)
      ∧ (lastDefault l = none → dflt = d0)
      ∧ (∀ v, lastDefault l = some v →
          ∃ hv, buildHandler env v = Except.ok hv ∧ dflt = some hv) := by
  intro l
  induction l with
  | nil =>
    intro hs0 d0 hs dflt h
    cases h
    refine ⟨⟨[], by simp, ?_⟩, fun _ => rfl, fun v hv => ?_⟩
    · simp [List.Forall₂]
    · nomatch hv
  | cons v rest ih =>
    intro hs0 d0 hs dflt h
    unfold registerLoop at h
    cases hb : buildHandler env v with
    | error e => rw [hb] at h; nomatch h
    | ok hv0 =>
      simp only [hb] at h
      cases hvd : v.asDefault with
      | true =>
        rw [if_pos hvd] at h
        obtain ⟨⟨hs1, hhs, hfa⟩, hnone, hsome⟩ := ih hs0 (some hv0) hs dflt h
        refine ⟨⟨hs1, hhs, ?_⟩, ?_, ?_⟩
        · simp only [List.filter_cons, hvd]
          exact hfa
        · intro hld
          exfalso
          unfold lastDefault at hld
          cases hr : lastDefault rest with
          | some w => rw [hr] at hld; nomatch hld
          | none => rw [hr, hvd] at hld; nomatch hld
        · intro w hw
          unfold lastDefault at hw
          cases hr : lastDefault rest with
          | some w2 =>
            rw [hr] at hw
            cases hw
            exact hsome _ hr
          | none =>
            rw [hr, hvd] at hw
            cases hw
            exact ⟨hv0, hb, hnone hr⟩
      | false =>
        rw [if_neg (by simp [hvd])] at h
        obtain ⟨⟨hs1, hhs, hfa⟩, hnone, hsome⟩ := ih (hs0 ++ [hv0]) d0 hs dflt h
        refine ⟨⟨hv0 :: hs1, ?_, ?_⟩, ?_, ?_⟩
        · rw [hhs, List.append_assoc]
          rfl
        · simp only [List.filter_cons, hvd]
          exact List.Forall₂.cons hb hfa
        · intro hld
          apply hnone
          unfold lastDefault at hld
          cases hr : lastDefault rest with
          | some w => rw [hr] at hld; nomatch hld
          | none => rfl
        · intro w hw
          unfold lastDefault at hw
          cases hr : lastDefault rest with
          | some w2 =>
            rw [hr] at hw
            cases hw
            exact hsome _ hr
          | none =>
            rw [hr, hvd] at hw
            nomatch hw

/-- C6: when registration succeeds, the default handler is the one
built from the last-declared default spec (each later default
silently replaces earlier ones), and the non-default specs are
registered as detectors in declaration order. -/
theorem C6_last_default_wins (env : Env) (l : List Protocol)
    (hs : List Handler) (dflt : Option Handler)
    (h : registerAll env l = Except.ok (hs, dflt)) :
    (lastDefault l = none → dflt = none)
    ∧ (∀ v, lastDefault l = some v →
        ∃ hv, buildHandler env v = Except.ok hv ∧ dflt = some hv)
    ∧ List.Forall₂ (fun v hv => buildHandler env v = Except.ok hv)
        (l.filter (fun v => !v.asDefault)) hs := by
  obtain ⟨⟨hs1, hhs, hfa⟩, hnone, hsome⟩ :=
    registerLoop_ok env l [] none hs dflt h
  refine ⟨hnone, hsome, ?_⟩
  rw [hhs, List.nil_append]
  exact hfa

/-- Environment with no readable files and all syscalls succeeding. -/
def envAll : Env :=
  ⟨fun _ => none, fun _ _ => true, fun _ => true, fun _ => true⟩

/-- A protocol list with two defaults (echo then discard) and one
non-default echo. -/
def protosTwoDefaults : List Protocol :=
  [⟨"echo", true, []⟩, ⟨"discard", true, []⟩, ⟨"echo", false, []⟩]

/-- C6 witness: with two declared defaults, the later (discard)
replaces the earlier (echo). -/
theorem C6_witness :
    ∃ hv, buildHandler envAll ⟨"discard", true, []⟩ = Except.ok hv
      ∧ (some Handler.discard) = some hv :=
  (C6_last_default_wins envAll protosTwoDefaults [Handler.echo]
      (some Handler.discard) rfl).2.1 ⟨"discard", true, []⟩ rfl

/-! ### C1: startup order -/

theorem loopTrace_no_serve (env : Env) :
    ∀ l : List Protocol, (∃ v ∈ l, isErr (buildHandler env v) = true) →
      Event.serveStarted ∉ loopTrace env l := by
  intro l
  induction l with
  | nil =>
    intro h
    obtain ⟨v, hv, _⟩ := h
    nomatch hv
  | cons v rest ih =>
    intro h hmem
    cases hb : buildHandler env v with
    | error e =>
      unfold loopTrace at hmem
      rw [hb] at hmem
      simp at hmem
    | ok hv0 =>
      unfold loopTrace at hmem
      rw [hb] at hmem
      obtain ⟨w, hw, herr⟩ := h
      rcases List.mem_cons.mp hw with hw | hw
      · subst hw
        rw [hb] at herr
        nomatch herr
      · apply ih ⟨w, hw, herr⟩
        rcases List.mem_cons.mp hmem with hmem | hmem
        · exfalso
          cases hvd : v.asDefault <;> rw [hvd] at hmem <;> nomatch hmem
        · exact hmem

/-- C1 counterexample: a configuration whose single protocol has an
unrecognized kind.  Handler construction fails, yet the startup trace
contains the listen event before the abort: the listening socket is
opened before handler validation, refuting the claim that the
listener is never opened. -/
def confBogus : Config :=
  ⟨":80", false, "", 0, [⟨"bogus", false, []⟩]⟩

theorem C1_counterexample :
    isErr (buildHandler envAll ⟨"bogus", false, []⟩) = true
    ∧ mainTrace envAll confBogus
        = [Event.listenOpened, Event.panicked "Unknown kind: bogus"]
    ∧ Event.listenOpened ∈ mainTrace envAll confBogus := by
  refine ⟨rfl, rfl, ?_⟩
  rw [show mainTrace envAll confBogus
      = [Event.listenOpened, Event.panicked "Unknown kind: bogus"] from rfl]
  exact List.mem_cons_self _ _

/-- C1 (amended): a handler-construction failure aborts the process
before `server.Serve` runs, so no connection is ever served — but the
listening socket has already been opened by then, since `net.Listen`
precedes the construction loop in `main`. -/
theorem C1_abort_before_serve (env : Env) (conf : Config)
    (h : ∃ v ∈ conf.protocols, isErr (buildHandler env v) = true) :
    Event.serveStarted ∉ mainTrace env conf := by
  unfold mainTrace
  split
  · simp
  · split
    · simp
    · split
      · simp
      · intro hmem
        rcases List.mem_cons.mp hmem with hmem | hmem
        · nomatch hmem
        · exact loopTrace_no_serve env conf.protocols h hmem

/-- C1 witness: the amended theorem at the concrete failing
configuration. -/
theorem C1_witness :
    (∃ v ∈ confBogus.protocols, isErr (buildHandler envAll v) = true)
    ∧ Event.serveStarted ∉ mainTrace envAll confBogus :=
  ⟨⟨⟨"bogus", false, []⟩, List.mem_cons_self _ _, rfl⟩,
   C1_abort_before_serve envAll confBogus
     ⟨⟨"bogus", false, []⟩, List.mem_cons_self _ _, rfl⟩⟩

/-! ### C5: multi-pattern magic matching -/

/-- C5: a connection is claimed iff some declared pattern is a prefix
of the buffered bytes, and among several matching patterns the
earliest-declared one is selected. -/
theorem C5_multi_magic_first_match (patterns : List (List Char)) (buf : List Char) :
    ((multiProxyMatch patterns buf).isSome = true ↔ ∃ p, p ∈ patterns ∧ p <+: buf)
    ∧ (∀ i p, patterns.get? i = some p → p.isPrefixOf buf = true →
        (∀ j q, j < i → patterns.get? j = some q → q.isPrefixOf buf = false) →
        multiProxyMatch patterns buf = some p) := by
  constructor
  · unfold multiProxyMatch
    rw [List.find?_isSome]
    constructor
    · intro ⟨p, hp, hpre⟩
      exact ⟨p, hp, List.isPrefixOf_iff_prefix.mp hpre⟩
    · intro ⟨p, hp, hpre⟩
      exact ⟨p, hp, List.isPrefixOf_iff_prefix.mpr hpre⟩
  · induction patterns with
    | nil =>
      intro i p hp
      rw [List.get?_nil] at hp
      nomatch hp
    | cons p0 rest ih =>
      intro i p hp hpre hmin
      cases hp0 : p0.isPrefixOf buf with
      | true =>
        have hp0eq : p = p0 := by
          cases i with
          | zero =>
            rw [List.get?_cons_zero] at hp
            exact (Option.some.inj hp).symm
          | succ k =>
            have hfalse := hmin 0 p0 (Nat.succ_pos k) List.get?_cons_zero
            rw [hp0] at hfalse
            nomatch hfalse
        subst hp0eq
        unfold multiProxyMatch
        exact List.find?_cons_of_pos _ hp0
      | false =>
        cases i with
        | zero =>
          rw [List.get?_cons_zero] at hp
          cases hp
          rw [hp0] at hpre
          nomatch hpre
        | succ k =>
          rw [List.get?_cons_succ] at hp
          unfold multiProxyMatch
          rw [List.find?_cons_of_neg _ (by rw [hp0]; exact Bool.false_ne_true)]
          exact ih k p hp hpre
            (fun j q hj hq => hmin (j + 1) q (Nat.succ_lt_succ hj)
              (by rw [List.get?_cons_succ]; exact hq))

/-- C5 witness: patterns `["SS", "SSH"]` on input `"SSHfoo"` select
the earlier-declared `"SS"`. -/
theorem C5_witness :
    multiProxyMatch [['S', 'S'], ['S', 'S', 'H']] ['S', 'S', 'H', 'f', 'o', 'o']
      = some ['S', 'S'] :=
  (C5_multi_magic_first_match [['S', 'S'], ['S', 'S', 'H']]
      ['S', 'S', 'H', 'f', 'o', 'o']).2 0 ['S', 'S'] rfl rfl
    (fun j _ hj _ => absurd hj (Nat.not_lt_zero j))

/-! ### C2: path containment for the HTTP file handler

The lemmas below characterise `segsCh`, `intercalateCh` and
`cleanStack` far enough to show that joining a clean absolute root
with the `"."`-prefixed cleaned request path can never leave the
root. -/

theorem segPush_reverse (cur : List Char) (acc : List (List Char)) :
    (segPush cur acc).reverse = acc.reverse ++ (segPush cur []).reverse := by
  unfold segPush
  split <;> simp

theorem splitLoop_acc (l : List Char) :
    ∀ (cur : List Char) (acc : List (List Char)),
      splitLoop l cur acc = acc.reverse ++ splitLoop l cur [] := by
  induction l with
  | nil =>
    intro cur acc
    simp only [splitLoop]
    exact segPush_reverse cur acc
  | cons c rest ih =>
    intro cur acc
    by_cases hc : c = '/'
    · simp only [splitLoop, if_pos hc]
      rw [ih [] (segPush cur acc), ih [] (segPush cur []), segPush_reverse]
      simp [List.append_assoc]
    · simp only [splitLoop, if_neg hc]
      exact ih (c :: cur) acc

theorem splitLoop_slash (B : List Char) (A : List Char) :
    ∀ (cur : List Char) (acc : List (List Char)),
      splitLoop (A ++ '/' :: B) cur acc
        = acc.reverse ++ splitLoop A cur [] ++ segsCh B := by
  induction A with
  | nil =>
    intro cur acc
    show splitLoop ('/' :: B) cur acc = _
    simp only [splitLoop, if_true, eq_self_iff_true]
    rw [splitLoop_acc B [] (segPush cur acc), segPush_reverse]
    simp only [splitLoop, segsCh, List.append_assoc]
  | cons c A ih =>
    intro cur acc
    by_cases hc : c = '/'
    · subst hc
      show splitLoop ('/' :: (A ++ '/' :: B)) cur acc = _
      simp only [splitLoop, if_true, eq_self_iff_true]
      rw [ih [] (segPush cur acc), segPush_reverse,
        splitLoop_acc A [] (segPush cur [])]
      simp [List.append_assoc]
    · show splitLoop (c :: (A ++ '/' :: B)) cur acc = _
      simp only [splitLoop, if_neg hc]
      exact ih (c :: cur) acc

theorem segsCh_append (A B : List Char) :
    segsCh (A ++ '/' :: B) = segsCh A ++ segsCh B := by
  unfold segsCh
  rw [splitLoop_slash B A [] []]
  simp [segsCh]

theorem splitLoop_noslash :
    ∀ (l cur : List Char) (acc : List (List Char)), (∀ c ∈ l, c ≠ '/') →
      splitLoop l cur acc = (segPush (l.reverse ++ cur) acc).reverse := by
  intro l
  induction l with
  | nil => intro cur acc _; simp [splitLoop]
  | cons c rest ih =>
    intro cur acc h
    have hc : c ≠ '/' := h c (List.mem_cons_self c rest)
    simp only [splitLoop, if_neg hc]
    rw [ih (c :: cur) acc (fun x hx => h x (List.mem_cons_of_mem c hx))]
    have : rest.reverse ++ (c :: cur) = (c :: rest).reverse ++ cur := by
      simp [List.append_assoc]
    rw [this]

theorem segsCh_noslash (a : List Char) (h1 : a ≠ []) (h2 : ∀ c ∈ a, c ≠ '/') :
    segsCh a = [a] := by
  unfold segsCh
  rw [splitLoop_noslash a [] [] h2]
  have ha : a.reverse ++ ([] : List Char) = a.reverse := by simp
  rw [ha]
  unfold segPush
  rw [if_neg (by simpa using h1)]
  simp

theorem splitLoop_mem :
    ∀ (l cur : List Char) (acc : List (List Char)),
      (∀ s ∈ acc, s ≠ [] ∧ '/' ∉ s) → '/' ∉ cur →
      ∀ s ∈ splitLoop l cur acc, s ≠ [] ∧ '/' ∉ s := by
  intro l
  induction l with
  | nil =>
    intro cur acc hacc hcur s hs
    simp only [splitLoop, List.mem_reverse] at hs
    unfold segPush at hs
    split at hs
    · exact hacc s hs
    next hcur2 =>
      rcases List.mem_cons.mp hs with hs | hs
      · subst hs
        refine ⟨by simpa using hcur2, by simpa using hcur⟩
      · exact hacc s hs
  | cons c rest ih =>
    intro cur acc hacc hcur s hs
    by_cases hc : c = '/'
    · rw [show splitLoop (c :: rest) cur acc
          = splitLoop rest [] (segPush cur acc) by
        simp only [splitLoop, if_pos hc]] at hs
      refine ih [] (segPush cur acc) ?_ (by simp) s hs
      intro x hx
      unfold segPush at hx
      split at hx
      · exact hacc x hx
      next hcur2 =>
        rcases List.mem_cons.mp hx with hx | hx
        · subst hx
          refine ⟨by simpa using hcur2, by simpa using hcur⟩
        · exact hacc x hx
    · rw [show splitLoop (c :: rest) cur acc = splitLoop rest (c :: cur) acc by
        simp only [splitLoop, if_neg hc]] at hs
      refine ih (c :: cur) acc hacc ?_ s hs
      intro hmem
      rcases List.mem_cons.mp hmem with hmem | hmem
      · exact hc hmem.symm
      · exact hcur hmem

theorem segsCh_mem (l : List Char) (s : List Char) (hs : s ∈ segsCh l) :
    s ≠ [] ∧ '/' ∉ s :=
  splitLoop_mem l [] [] (by simp) (by simp) s hs

theorem segsCh_cons_slash (l : List Char) : segsCh ('/' :: l) = segsCh l := by
  simp [segsCh, splitLoop, segPush]

theorem segsCh_intercalate :
    ∀ L : List (List Char), (∀ s ∈ L, s ≠ [] ∧ '/' ∉ s) →
      segsCh (intercalateCh L) = L := by
  intro L
  induction L with
  | nil =>
    intro _
    simp [intercalateCh, segsCh, splitLoop, segPush]
  | cons a L ih =>
    intro h
    cases L with
    | nil =>
      show segsCh a = [a]
      exact segsCh_noslash a (h a (List.mem_cons_self a [])).1
        (fun c hc hceq => (h a (List.mem_cons_self a [])).2 (hceq ▸ hc))
    | cons b L2 =>
      show segsCh (a ++ '/' :: intercalateCh (b :: L2)) = a :: b :: L2
      rw [segsCh_append, segsCh_noslash a (h a (List.mem_cons_self a (b :: L2))).1
        (fun c hc hceq => (h a (List.mem_cons_self a (b :: L2))).2 (hceq ▸ hc)),
        ih (fun s hs => h s (List.mem_cons_of_mem a hs))]
      rfl

theorem intercalateCh_append (A B : List (List Char)) (hA : A ≠ []) (hB : B ≠ []) :
    intercalateCh (A ++ B) = intercalateCh A ++ '/' :: intercalateCh B := by
  induction A with
  | nil => exact absurd rfl hA
  | cons a A ih =>
    cases A with
    | nil =>
      cases B with
      | nil => exact absurd rfl hB
      | cons b B2 =>
        show intercalateCh (a :: b :: B2) = a ++ '/' :: intercalateCh (b :: B2)
        rfl
    | cons a2 A2 =>
      show intercalateCh (a :: a2 :: (A2 ++ B)) = _
      rw [show intercalateCh (a :: a2 :: (A2 ++ B))
          = a ++ '/' :: intercalateCh (a2 :: (A2 ++ B)) from rfl]
      rw [show (a2 :: (A2 ++ B)) = (a2 :: A2) ++ B from rfl]
      rw [ih (by simp)]
      show a ++ '/' :: (intercalateCh (a2 :: A2) ++ '/' :: intercalateCh B)
        = (a ++ '/' :: intercalateCh (a2 :: A2)) ++ '/' :: intercalateCh B
      simp [List.append_assoc]

theorem intercalateCh_ne_nil (A : List (List Char)) (hA : A ≠ [])
    (h : ∀ s ∈ A, s ≠ []) : intercalateCh A ≠ [] := by
  cases A with
  | nil => exact absurd rfl hA
  | cons a A2 =>
    cases A2 with
    | nil => exact h a (List.mem_cons_self a [])
    | cons b A3 =>
      show a ++ '/' :: intercalateCh (b :: A3) ≠ []
      simp

theorem cleanStack_normal (r : Bool) :
    ∀ (A : List (List Char)), (∀ s ∈ A, s ≠ ['.'] ∧ s ≠ ['.', '.']) →
      ∀ (acc B : List (List Char)),
        cleanStack r acc (A ++ B) = cleanStack r (A.reverse ++ acc) B := by
  intro A
  induction A with
  | nil => intro _ acc B; simp
  | cons a A ih =>
    intro h acc B
    have ha := h a (List.mem_cons_self a A)
    rw [show (a :: A) ++ B = a :: (A ++ B) from rfl]
    rw [show cleanStack r acc (a :: (A ++ B)) = cleanStack r (a :: acc) (A ++ B) from by
      simp only [cleanStack, if_neg ha.1, if_neg ha.2]]
    rw [ih (fun s hs => h s (List.mem_cons_of_mem a hs)) (a :: acc) B]
    congr 1
    simp

theorem cleanStack_no_dotdot (r : Bool) :
    ∀ (D : List (List Char)), ['.', '.'] ∉ D →
      ∀ acc, cleanStack r acc D = acc.reverse ++ D.filter (fun s => s ≠ ['.']) := by
  intro D
  induction D with
  | nil => intro _ acc; simp [cleanStack]
  | cons d D2 ih =>
    intro hdd acc
    have hd2 : d ≠ ['.', '.'] := fun hx => hdd (hx ▸ List.mem_cons_self d D2)
    have hdd2 : ['.', '.'] ∉ D2 := fun hx => hdd (List.mem_cons_of_mem d hx)
    by_cases hd : d = ['.']
    · rw [show cleanStack r acc (d :: D2) = cleanStack r acc D2 from by
        simp only [cleanStack, if_pos hd]]
      rw [ih hdd2 acc]
      congr 1
      simp [List.filter_cons, hd]
    · rw [show cleanStack r acc (d :: D2) = cleanStack r (d :: acc) D2 from by
        simp only [cleanStack, if_neg hd, if_neg hd2]]
      rw [ih hdd2 (d :: acc)]
      rw [List.filter_cons]
      rw [if_pos (by simpa using hd)]
      simp [List.append_assoc]

theorem cleanStack_true_mem :
    ∀ (S acc : List (List Char)),
      (∀ a ∈ acc, a ≠ ['.'] ∧ a ≠ ['.', '.']) →
      ∀ x ∈ cleanStack true acc S,
        (x ∈ acc ∨ x ∈ S) ∧ x ≠ ['.'] ∧ x ≠ ['.', '.'] := by
  intro S
  induction S with
  | nil =>
    intro acc hacc x hx
    simp only [cleanStack, List.mem_reverse] at hx
    exact ⟨Or.inl hx, hacc x hx⟩
  | cons seg rest ih =>
    intro acc hacc x hx
    by_cases h1 : seg = ['.']
    · rw [show cleanStack true acc (seg :: rest) = cleanStack true acc rest from by
        simp only [cleanStack, if_pos h1]] at hx
      obtain ⟨hmem, hx2⟩ := ih acc hacc x hx
      exact ⟨hmem.imp id (List.mem_cons_of_mem seg), hx2⟩
    · by_cases h2 : seg = ['.', '.']
      · cases acc with
        | nil =>
          rw [show cleanStack true [] (seg :: rest) = cleanStack true [] rest from by
            simp only [cleanStack, if_neg h1, if_pos h2, if_true]] at hx
          obtain ⟨hmem, hx2⟩ := ih [] (by simp) x hx
          rcases hmem with hmem | hmem
          · nomatch hmem
          · exact ⟨Or.inr (List.mem_cons_of_mem seg hmem), hx2⟩
        | cons a acc2 =>
          have ha := hacc a (List.mem_cons_self a acc2)
          rw [show cleanStack true (a :: acc2) (seg :: rest)
              = cleanStack true acc2 rest from by
            simp only [cleanStack, if_neg h1, if_pos h2, if_neg ha.2]] at hx
          obtain ⟨hmem, hx2⟩ := ih acc2
            (fun s hs => hacc s (List.mem_cons_of_mem a hs)) x hx
          rcases hmem with hmem | hmem
          · exact ⟨Or.inl (List.mem_cons_of_mem a hmem), hx2⟩
          · exact ⟨Or.inr (List.mem_cons_of_mem seg hmem), hx2⟩
      · rw [show cleanStack true acc (seg :: rest)
            = cleanStack true (seg :: acc) rest from by
          simp only [cleanStack, if_neg h1, if_neg h2]] at hx
        obtain ⟨hmem, hx2⟩ := ih (seg :: acc)
          (fun s hs => by
            rcases List.mem_cons.mp hs with hs | hs
            · exact hs ▸ ⟨h1, h2⟩
            · exact hacc s hs) x hx
        rcases hmem with hmem | hmem
        · rcases List.mem_cons.mp hmem with hmem | hmem
          · exact ⟨Or.inr (hmem ▸ List.mem_cons_self seg rest), hx2⟩
          · exact ⟨Or.inl hmem, hx2⟩
        · exact ⟨Or.inr (List.mem_cons_of_mem seg hmem), hx2⟩

theorem rooted_head {l : List Char} (h : isRooted l = true) :
    ∃ t, l = '/' :: t := by
  cases l with
  | nil => nomatch h
  | cons c t =>
    unfold isRooted at h
    exact ⟨t, by rw [eq_of_beq h]⟩

theorem rooted_append {l : List Char} (h : isRooted l = true) (m : List Char) :
    isRooted (l ++ m) = true := by
  obtain ⟨t, rfl⟩ := rooted_head h
  rfl

theorem goCleanCh_rooted (l : List Char) (h : isRooted l = true) :
    goCleanCh l = '/' :: intercalateCh (cleanStack true [] (segsCh l)) := by
  obtain ⟨t, rfl⟩ := rooted_head h
  rfl

theorem rootedCleanNormal (l : List Char) :
    ∀ x ∈ cleanStack true [] (segsCh l),
      x ≠ [] ∧ '/' ∉ x ∧ x ≠ ['.'] ∧ x ≠ ['.', '.'] := by
  intro x hx
  have h1 := cleanStack_true_mem (segsCh l) [] (by simp) x hx
  have hx2 : x ∈ segsCh l := by
    rcases h1.1 with h | h
    · nomatch h
    · exact h
  have h2 := segsCh_mem l x hx2
  exact ⟨h2.1, h2.2, h1.2.1, h1.2.2⟩

theorem stringDataEq {a b : String} (h : a.data = b.data) : a = b := by
  cases a
  cases b
  exact congrArg String.mk h

theorem root_normal (root : String) (hclean : goClean root = root)
    (habs : isRooted root.data = true) :
    (∀ x ∈ segsCh root.data,
      x ≠ [] ∧ '/' ∉ x ∧ x ≠ ['.'] ∧ x ≠ ['.', '.'])
    ∧ root.data = '/' :: intercalateCh (segsCh root.data) := by
  have hdata : root.data = goCleanCh root.data := by
    conv_lhs => rw [← hclean]
    rfl
  rw [goCleanCh_rooted root.data habs] at hdata
  have hnorm := rootedCleanNormal root.data
  have hsegs : segsCh root.data = cleanStack true [] (segsCh root.data) := by
    conv_lhs => rw [hdata]
    rw [segsCh_cons_slash,
      segsCh_intercalate _ (fun s hs => ⟨(hnorm s hs).1, (hnorm s hs).2.1⟩)]
  constructor
  · intro x hx
    rw [hsegs] at hx
    exact hnorm x hx
  · rw [hsegs]
    exact hdata

theorem clean_root_dot_segs (root : String) (hclean : goClean root = root)
    (habs : isRooted root.data = true) (hne : root ≠ "/")
    (D : List (List Char))
    (hD : ∀ x ∈ D, x ≠ [] ∧ '/' ∉ x ∧ x ≠ ['.'] ∧ x ≠ ['.', '.'])
    (hDne : D ≠ []) (tl : List Char) (hsegs : segsCh tl = ['.'] :: D) :
    goCleanCh (root.data ++ '/' :: tl)
      = root.data ++ '/' :: intercalateCh D := by
  have hroot := root_normal root hclean habs
  have hR : segsCh root.data ≠ [] := by
    intro h0
    apply hne
    apply stringDataEq
    rw [hroot.2, h0]
    decide
  rw [goCleanCh_rooted _ (rooted_append habs _)]
  rw [segsCh_append, hsegs]
  rw [cleanStack_normal true (segsCh root.data)
    (fun s hs => ⟨(hroot.1 s hs).2.2.1, (hroot.1 s hs).2.2.2⟩) [] (['.'] :: D)]
  rw [show cleanStack true ((segsCh root.data).reverse ++ []) (['.'] :: D)
      = cleanStack true ((segsCh root.data).reverse ++ []) D from by
    simp only [cleanStack, if_true, eq_self_iff_true]]
  rw [cleanStack_no_dotdot true D (fun hx => (hD _ hx).2.2.2 rfl)]
  have hfil : D.filter (fun s => s ≠ ['.']) = D := by
    rw [List.filter_eq_self]
    intro a ha
    simpa using (hD a ha).2.2.1
  rw [hfil]
  simp only [List.append_nil, List.reverse_reverse]
  rw [intercalateCh_append _ _ hR hDne]
  conv_rhs => rw [hroot.2]
  simp

theorem serveResolved_default (root d s : String) (hclean : goClean root = root)
    (habs : isRooted root.data = true) (hne : root ≠ "/")
    (hd1 : d.data ≠ []) (hd2 : '/' ∉ d.data)
    (hd3 : d.data ≠ ['.']) (hd4 : d.data ≠ ['.', '.'])
    (hs : isRooted s.data = true)
    (hC0 : cleanStack true [] (segsCh s.data) = []) :
    serveResolvedPathCh root.data d.data s.data = root.data ++ '/' :: d.data := by
  have hrne : root.data ≠ [] := by
    obtain ⟨t, ht⟩ := rooted_head habs
    rw [ht]
    simp
  show goJoinCh root.data
      (if '.' :: goCleanCh s.data = ['.', '/']
       then ('.' :: goCleanCh s.data) ++ d.data
       else '.' :: goCleanCh s.data)
    = root.data ++ '/' :: d.data
  rw [goCleanCh_rooted s.data hs, hC0,
    show intercalateCh ([] : List (List Char)) = [] from rfl,
    if_pos rfl]
  unfold goJoinCh
  rw [if_neg hrne, if_neg (by simp)]
  have hstep := clean_root_dot_segs root hclean habs hne [d.data]
    (by
      intro x hx
      rw [List.mem_singleton] at hx
      subst hx
      exact ⟨hd1, hd2, hd3, hd4⟩)
    (by simp) ('.' :: '/' :: d.data)
    (by
      rw [show ('.' :: '/' :: d.data) = ['.'] ++ '/' :: d.data from rfl,
        segsCh_append,
        segsCh_noslash d.data hd1 (fun c hc hceq => hd2 (hceq ▸ hc))]
      rfl)
  exact hstep

theorem serveResolved_nondefault (root d s : String) (hclean : goClean root = root)
    (habs : isRooted root.data = true) (hne : root ≠ "/")
    (hs : isRooted s.data = true)
    (hC0 : cleanStack true [] (segsCh s.data) ≠ []) :
    serveResolvedPathCh root.data d.data s.data
      = root.data ++ '/' :: intercalateCh (cleanStack true [] (segsCh s.data)) := by
  have hrne : root.data ≠ [] := by
    obtain ⟨t, ht⟩ := rooted_head habs
    rw [ht]
    simp
  have hC := rootedCleanNormal s.data
  have hCne : intercalateCh (cleanStack true [] (segsCh s.data)) ≠ [] :=
    intercalateCh_ne_nil _ hC0 (fun x hx => (hC x hx).1)
  show goJoinCh root.data
      (if '.' :: goCleanCh s.data = ['.', '/']
       then ('.' :: goCleanCh s.data) ++ d.data
       else '.' :: goCleanCh s.data)
    = _
  rw [goCleanCh_rooted s.data hs]
  rw [if_neg (by
    intro hx
    apply hCne
    have := List.cons.inj hx
    have := List.cons.inj this.2
    exact this.2)]
  unfold goJoinCh
  rw [if_neg hrne, if_neg (by simp)]
  exact clean_root_dot_segs root hclean habs hne _ hC hC0
    ('.' :: '/' :: intercalateCh (cleanStack true [] (segsCh s.data)))
    (by
      rw [show ('.' :: '/' :: intercalateCh (cleanStack true [] (segsCh s.data)))
          = ['.'] ++ '/' :: intercalateCh (cleanStack true [] (segsCh s.data)) from rfl,
        segsCh_append,
        segsCh_intercalate _ (fun x hx => ⟨(hC x hx).1, (hC x hx).2.1⟩)]
      rfl)

/-- C2: for a clean absolute root directory and a plain default file
name, every rooted client request path resolves strictly under the
root (no `..` survives resolution); the request path `"/"` resolves
to the default file under the root; and the construction defaults the
default file to `"index.html"` when no `defaultFile` option is
given. -/
theorem C2_http_path_containment (root d : String)
    (hclean : goClean root = root) (habs : isRooted root.data = true)
    (hne : root ≠ "/") (hd1 : d.data ≠ []) (hd2 : '/' ∉ d.data)
    (hd3 : d.data ≠ ['.']) (hd4 : d.data ≠ ['.', '.']) :
    (∀ s : String, isRooted s.data = true →
      ∃ rest : List Char,
        (serveResolvedPath root d s).data = root.data ++ '/' :: rest
        ∧ rest ≠ []
        ∧ ∀ x ∈ segsCh rest, x ≠ [] ∧ x ≠ ['.'] ∧ x ≠ ['.', '.'])
    ∧ serveResolvedPath root d "/" = String.mk (root.data ++ '/' :: d.data)
    ∧ (∀ (env : Env) (conf : ConfMap) (hh : httpHandler),
        lookupC conf "defaultFile" = none →
        buildHttp env conf = Except.ok hh → hh.defaultFile = "index.html") := by
  refine ⟨?_, ?_, ?_⟩
  · intro s hs
    by_cases hC0 : cleanStack true [] (segsCh s.data) = []
    · refine ⟨d.data, ?_, hd1, ?_⟩
      · exact serveResolved_default root d s hclean habs hne hd1 hd2 hd3 hd4 hs hC0
      · rw [segsCh_noslash d.data hd1 (fun c hc hceq => hd2 (hceq ▸ hc))]
        intro x hx
        rw [List.mem_singleton] at hx
        subst hx
        exact ⟨hd1, hd3, hd4⟩
    · have hC := rootedCleanNormal s.data
      refine ⟨intercalateCh (cleanStack true [] (segsCh s.data)), ?_, ?_, ?_⟩
      · exact serveResolved_nondefault root d s hclean habs hne hs hC0
      · exact intercalateCh_ne_nil _ hC0 (fun x hx => (hC x hx).1)
      · rw [segsCh_intercalate _ (fun x hx => ⟨(hC x hx).1, (hC x hx).2.1⟩)]
        intro x hx
        exact ⟨(hC x hx).1, (hC x hx).2.2.1, (hC x hx).2.2.2⟩
  · exact congrArg String.mk
      (serveResolved_default root d "/" hclean habs hne hd1 hd2 hd3 hd4 rfl rfl)
  · intro env conf hh hnone hok
    have hdf := (buildHttp_ok_fields hok).2.1
    unfold httpDefaultFile at hdf
    simp only [hnone] at hdf
    exact (Except.ok.inj hdf).symm

/-- C2 witness: the spec's example inputs against root `/srv/http`
with the default `index.html`. -/
theorem C2_witness :
    (∃ rest : List Char,
      (serveResolvedPath "/srv/http" "index.html" "/../../etc/passwd").data
        = "/srv/http".data ++ '/' :: rest
      ∧ rest ≠ []
      ∧ ∀ x ∈ segsCh rest, x ≠ [] ∧ x ≠ ['.'] ∧ x ≠ ['.', '.'])
    ∧ serveResolvedPath "/srv/http" "index.html" "/" = "/srv/http/index.html" := by
  have h := C2_http_path_containment "/srv/http" "index.html"
    (by decide) (by decide) (by decide) (by decide) (by decide) (by decide) (by decide)
  refine ⟨h.1 "/../../etc/passwd" (by decide), ?_⟩
  rw [h.2.1]
  decide
